import Mathlib

/-!
Verification of the maximum power point tracker `mppt` in
`mutovis_control/mppt.py`.

Rational numbers stand in for Python floats (all the arithmetic the claims
depend on is exact); instrument interaction is modelled by explicit call
traces and by oracle sequences of samples; the wall clock is an oracle
argument.  The transcendental angle computation (`numpy.rad2deg` of
`numpy.arctan`) is embedded with `Real.arctan`.
-/

/-- One raw measurement `[v, i, tx, status]` as returned by `sm.measure()`
and collected by `sm.measureUntil`. -/
structure Sample where
  v : ℚ
  i : ℚ
  tx : ℚ
  status : ℚ
deriving DecidableEq

/-- Default sample handed to `List.getD`. -/
def sample0 : Sample := ⟨0, 0, 0, 0⟩

/-- Helper for `argmaxQ`: scans the rest of the list keeping the running
maximum `bv` and the index `best` of its first occurrence; `k` is the index
of the head of `xs` in the full list. -/
def argmaxAux : List ℚ → ℕ → ℚ → ℕ → ℕ
  | [], _, _, best => best
  | x :: xs, k, bv, best =>
    if bv < x then argmaxAux xs (k + 1) x k else argmaxAux xs (k + 1) bv best

/-- `numpy.argmax`: index of the first occurrence of the maximum of the
list (`numpy.argmax` raises on an empty array; `argmaxQ` is only applied to
nonempty lists, cf. `which_max_power`). -/
def argmaxQ : List ℚ → ℕ
  | [] => 0
  | x :: xs => argmaxAux xs 1 x 0

theorem argmaxAux_spec (xs : List ℚ) : ∀ (pre : List ℚ) (bv : ℚ) (best : ℕ),
    best < pre.length → pre.getD best 0 = bv →
    (∀ j, j < pre.length → pre.getD j 0 ≤ bv) →
    (∀ j, j < best → pre.getD j 0 < bv) →
    argmaxAux xs pre.length bv best < (pre ++ xs).length ∧
    (∀ j, j < (pre ++ xs).length →
      (pre ++ xs).getD j 0 ≤ (pre ++ xs).getD (argmaxAux xs pre.length bv best) 0) ∧
    (∀ j, j < argmaxAux xs pre.length bv best →
      (pre ++ xs).getD j 0 < (pre ++ xs).getD (argmaxAux xs pre.length bv best) 0) := by
  induction xs with
  | nil =>
    intro pre bv best hb hval hle hlt
    simp only [argmaxAux, List.append_nil]
    refine ⟨hb, ?_, ?_⟩
    · intro j hj; rw [hval]; exact hle j hj
    · intro j hj; rw [hval]; exact hlt j hj
  | cons x xs ih =>
    intro pre bv best hb hval hle hlt
    have hpre1 : (pre ++ [x]).length = pre.length + 1 := by simp
    have hassoc : (pre ++ [x]) ++ xs = pre ++ x :: xs := by simp
    have hgetx : (pre ++ [x]).getD pre.length 0 = x := by
      rw [List.getD_append_right _ _ _ _ (le_refl pre.length)]
      simp
    have hgetold : ∀ j, j < pre.length → (pre ++ [x]).getD j 0 = pre.getD j 0 := by
      intro j hj; exact List.getD_append _ _ _ _ hj
    by_cases hcmp : bv < x
    · have hrw : argmaxAux (x :: xs) pre.length bv best
          = argmaxAux xs (pre.length + 1) x pre.length := by
        simp [argmaxAux, hcmp]
      rw [hrw, ← hpre1, ← hassoc]
      apply ih (pre ++ [x]) x pre.length
      · omega
      · exact hgetx
      · intro j hj
        rw [hpre1] at hj
        rcases Nat.lt_succ_iff_lt_or_eq.mp hj with h | h
        · rw [hgetold j h]; exact le_of_lt (lt_of_le_of_lt (hle j h) hcmp)
        · rw [h, hgetx]
      · intro j hj
        rw [hgetold j hj]
        exact lt_of_le_of_lt (hle j hj) hcmp
    · have hrw : argmaxAux (x :: xs) pre.length bv best
          = argmaxAux xs (pre.length + 1) bv best := by
        simp [argmaxAux, hcmp]
      have hvalb : (pre ++ [x]).getD best 0 = bv := by rw [hgetold best hb]; exact hval
      rw [hrw, ← hpre1, ← hassoc]
      apply ih (pre ++ [x]) bv best
      · omega
      · exact hvalb
      · intro j hj
        rw [hpre1] at hj
        rcases Nat.lt_succ_iff_lt_or_eq.mp hj with h | h
        · rw [hgetold j h]; exact hle j h
        · rw [h, hgetx]; exact le_of_not_lt hcmp
      · intro j hj
        rw [hgetold j (lt_trans hj hb)]
        exact hlt j hj

theorem argmaxQ_spec (l : List ℚ) (h : l ≠ []) :
    argmaxQ l < l.length ∧
    (∀ j, j < l.length → l.getD j 0 ≤ l.getD (argmaxQ l) 0) ∧
    (∀ j, j < argmaxQ l → l.getD j 0 < l.getD (argmaxQ l) 0) := by
  match l with
  | [] => exact absurd rfl h
  | x :: xs =>
    have h1 : ([x] : List ℚ).length = 1 := rfl
    have := argmaxAux_spec xs [x] x 0 (by simp) (by simp) ?_ ?_
    · simpa [argmaxQ] using this
    · intro j hj
      have hj0 : j = 0 := by simpa using hj
      subst hj0; simp
    · intro j hj; omega

/-- `mppt.which_max_power` (mppt.py lines 30-42): split the raw
measurements into voltage and current vectors, form `p = v*i*-1`, take
`numpy.argmax`, and return `(Pmax, Vmpp, Impp, maxIndex)`.  `numpy.argmax`
raises `ValueError` on an empty input, modelled by `none`. -/
def which_max_power (vector : List Sample) : Option (ℚ × ℚ × ℚ × ℕ) :=
  match vector with
  | [] => none
  | _ :: _ =>
    let v := vector.map Sample.v
    let i := vector.map Sample.i
    let p := List.zipWith (fun a b => a * b * (-1)) v i
    let maxIndex := argmaxQ p
    some (p.getD maxIndex 0, v.getD maxIndex 0, i.getD maxIndex 0, maxIndex)

theorem powers_getD (l : List Sample) (j : ℕ) (hj : j < l.length) :
    (List.zipWith (fun a b => a * b * (-1)) (l.map Sample.v) (l.map Sample.i)).getD j 0
      = -((l.getD j sample0).v * (l.getD j sample0).i) := by
  have hlen : (List.zipWith (fun a b => a * b * (-1)) (l.map Sample.v)
      (l.map Sample.i)).length = l.length := by
    simp [List.length_zipWith]
  rw [List.getD_eq_getElem _ _ (by omega), List.getD_eq_getElem _ _ hj]
  simp only [List.getElem_zipWith, List.getElem_map]
  ring

theorem powers_length (l : List Sample) :
    (List.zipWith (fun a b => a * b * (-1)) (l.map Sample.v)
      (l.map Sample.i)).length = l.length := by
  simp [List.length_zipWith]

/-- C1: for every non-empty sample list, `which_max_power` returns
`(Pmax, Vmpp, Impp, index)` where `Pmax` is the maximum of `-(v*i)` over
the list, `index` is the first position attaining it, and `Vmpp`/`Impp`
are that sample's voltage and current.  (Purity and determinism are
inherent: the model is a total function.) -/
theorem C1_which_max_power_spec (l : List Sample) (h : l ≠ []) :
    ∃ P V I k, which_max_power l = some (P, V, I, k) ∧ k < l.length ∧
      V = (l.getD k sample0).v ∧ I = (l.getD k sample0).i ∧
      P = -((l.getD k sample0).v * (l.getD k sample0).i) ∧
      (∀ j, j < l.length → -((l.getD j sample0).v * (l.getD j sample0).i) ≤ P) ∧
      (∀ j, j < k → -((l.getD j sample0).v * (l.getD j sample0).i) < P) := by
  match l with
  | a :: l' =>
    set L : List Sample := a :: l' with hL
    set p := List.zipWith (fun a b => a * b * (-1)) (L.map Sample.v) (L.map Sample.i) with hp
    have hplen : p.length = L.length := powers_length L
    have hpne : p ≠ [] := by
      intro hc
      rw [hc] at hplen
      simp [hL] at hplen
    obtain ⟨hk, hmax, hfirst⟩ := argmaxQ_spec p hpne
    set k := argmaxQ p with hkdef
    have hkL : k < L.length := by omega
    have hVg : (L.map Sample.v).getD k 0 = (L.getD k sample0).v := by
      rw [List.getD_eq_getElem _ _ (by simpa using hkL), List.getD_eq_getElem _ _ hkL]
      simp
    have hIg : (L.map Sample.i).getD k 0 = (L.getD k sample0).i := by
      rw [List.getD_eq_getElem _ _ (by simpa using hkL), List.getD_eq_getElem _ _ hkL]
      simp
    refine ⟨p.getD k 0, (L.map Sample.v).getD k 0, (L.map Sample.i).getD k 0, k, ?_, hkL,
      ?_, ?_, ?_, ?_, ?_⟩
    · rfl
    · exact hVg
    · exact hIg
    · rw [← powers_getD L k hkL]
    · intro j hj
      rw [← powers_getD L j hj]
      exact hmax j (by omega)
    · intro j hj
      rw [← powers_getD L j (lt_trans hj hkL)]
      exact hfirst j hj

/-- C1 witness: the spec §8 scenario — voltages `[0.40, 0.42, 0.44]`,
currents `[-0.035, -0.036, -0.030]` — picks index 1 with power `0.01512`. -/
theorem C1_witness :
    (([⟨2/5, -7/200, 0, 0⟩, ⟨21/50, -9/250, 0, 0⟩, ⟨11/25, -3/100, 0, 0⟩] : List Sample) ≠ []) ∧
    which_max_power [⟨2/5, -7/200, 0, 0⟩, ⟨21/50, -9/250, 0, 0⟩, ⟨11/25, -3/100, 0, 0⟩]
      = some (189/12500, 21/50, -9/250, 1) ∧
    (∃ P V I k, which_max_power
        ([⟨2/5, -7/200, 0, 0⟩, ⟨21/50, -9/250, 0, 0⟩, ⟨11/25, -3/100, 0, 0⟩] : List Sample)
        = some (P, V, I, k) ∧
      k < ([⟨2/5, -7/200, 0, 0⟩, ⟨21/50, -9/250, 0, 0⟩, ⟨11/25, -3/100, 0, 0⟩] : List Sample).length ∧
      V = (([⟨2/5, -7/200, 0, 0⟩, ⟨21/50, -9/250, 0, 0⟩, ⟨11/25, -3/100, 0, 0⟩] : List Sample).getD k sample0).v ∧
      I = (([⟨2/5, -7/200, 0, 0⟩, ⟨21/50, -9/250, 0, 0⟩, ⟨11/25, -3/100, 0, 0⟩] : List Sample).getD k sample0).i ∧
      P = -((([⟨2/5, -7/200, 0, 0⟩, ⟨21/50, -9/250, 0, 0⟩, ⟨11/25, -3/100, 0, 0⟩] : List Sample).getD k sample0).v *
          (([⟨2/5, -7/200, 0, 0⟩, ⟨21/50, -9/250, 0, 0⟩, ⟨11/25, -3/100, 0, 0⟩] : List Sample).getD k sample0).i) ∧
      (∀ j, j < ([⟨2/5, -7/200, 0, 0⟩, ⟨21/50, -9/250, 0, 0⟩, ⟨11/25, -3/100, 0, 0⟩] : List Sample).length →
        -((([⟨2/5, -7/200, 0, 0⟩, ⟨21/50, -9/250, 0, 0⟩, ⟨11/25, -3/100, 0, 0⟩] : List Sample).getD j sample0).v *
          (([⟨2/5, -7/200, 0, 0⟩, ⟨21/50, -9/250, 0, 0⟩, ⟨11/25, -3/100, 0, 0⟩] : List Sample).getD j sample0).i) ≤ P) ∧
      (∀ j, j < k →
        -((([⟨2/5, -7/200, 0, 0⟩, ⟨21/50, -9/250, 0, 0⟩, ⟨11/25, -3/100, 0, 0⟩] : List Sample).getD j sample0).v *
          (([⟨2/5, -7/200, 0, 0⟩, ⟨21/50, -9/250, 0, 0⟩, ⟨11/25, -3/100, 0, 0⟩] : List Sample).getD j sample0).i) < P)) :=
  ⟨by simp, by norm_num [which_max_power, argmaxQ, argmaxAux],
    C1_which_max_power_spec _ (by simp)⟩

/-- The persistent fields of the `mppt` class (mppt.py lines 9-16).  The
class declares `currentCompliance`; the methods read and write an attribute
named `current_compliance`, which does not exist on a fresh instance.
`current_compliance = none` models the absent attribute (reading it raises
`AttributeError`); `some none` models the attribute holding Python `None`;
`some (some c)` models a numeric value. -/
structure TrackerState where
  Voc : Option ℚ
  Isc : Option ℚ
  Vmpp : Option ℚ
  Impp : Option ℚ
  currentCompliance : Option ℚ
  current_compliance : Option (Option ℚ)
  dwell_time : ℚ
  t0 : Option ℚ
deriving DecidableEq

set_option linter.unusedVariables false in
/-- `mppt.reset` (mppt.py lines 21-28): every assignment binds a function
local (`Voc = None`, ..., `current_compliance = None`, `t0 = None`); none
writes `self`, so the instance is untouched. -/
def reset (st : TrackerState) : TrackerState :=
  let Voc : Option ℚ := none
  let Isc : Option ℚ := none
  let Vmpp : Option ℚ := none
  let Impp : Option ℚ := none
  let current_compliance : Option (Option ℚ) := none
  let t0 : Option ℚ := none
  st

/-- Python exceptions that the modelled code paths can raise. -/
inductive PyErr where
  | attributeError
  | indexError
deriving DecidableEq

/-- One instrument call, in the order issued (the `sm.*` interface). -/
inductive Call where
  | setNPLC (n : ℚ)
  | setupDC (sourceVoltage : Bool) (compliance : ℚ) (setPoint : ℚ)
  | writeArm
  | setOutput (v : ℚ)
  | measureUntil (t_dwell : ℚ) (hasCb : Bool)
  | measure
deriving DecidableEq

/-- How the pre-tracker part of `launch_tracker` ends. -/
inductive Phase1Out where
  | returned (q : List Sample)
  | proceed (q : List Sample)
  | raised (e : PyErr)
deriving DecidableEq

/-- Result of the pre-tracker part of `launch_tracker`: the (possibly
mutated) instance, the instrument calls issued, and how it ended. -/
structure Launch1Result where
  st : TrackerState
  trace : List Call
  out : Phase1Out
deriving DecidableEq

/-- `mppt.launch_tracker` (mppt.py lines 44-84) up to and including the
hand-off to `really_dumb_tracker`.  `tnow` is the value of `time.time()`
at line 52; `soakQ` is the sample list returned by the initial
`measureUntil` burst.  Faithful details: the `Voc == None` early return
(lines 49-51) happens before any mutation or call; `Vmpp` is seeded at
70% of `Voc` only when unset (lines 54-55); line 57 reads
`self.current_compliance`, raising `AttributeError` when that attribute
was never assigned; `NPLC != -1` gates `setNPLC` (lines 62-63); the soak
length is `duration * 0.2` for `duration <= 10`, else `10` (lines 69-73);
`Impp` becomes the last soak sample's current (line 76, `IndexError` on an
empty burst); lines 77-81 commit `current_compliance` and `Isc` when they
were unset. -/
def launch_tracker_pre (st : TrackerState) (tnow duration NPLC : ℚ)
    (soakQ : List Sample) : Launch1Result :=
  match st.Voc with
  | none => ⟨st, [], Phase1Out.returned []⟩
  | some voc =>
    let st1 := { st with t0 := some tnow }
    let st2 := match st1.Vmpp with
      | none => { st1 with Vmpp := some ((7/10) * voc) }
      | some _ => st1
    match st2.current_compliance with
    | none => ⟨st2, [], Phase1Out.raised PyErr.attributeError⟩
    | some cc =>
      let current_compliance : ℚ := match cc with
        | none => 4/100
        | some c => c
      let trace1 : List Call := if NPLC ≠ -1 then [Call.setNPLC NPLC] else []
      let trace2 := trace1 ++
        [Call.setupDC true current_compliance (st2.Vmpp.getD 0), Call.writeArm]
      let initial_soak : ℚ := if duration ≤ 10 then duration * (2/10) else 10
      let trace3 := trace2 ++ [Call.measureUntil initial_soak false]
      match soakQ.getLast? with
      | none => ⟨st2, trace3, Phase1Out.raised PyErr.indexError⟩
      | some mlast =>
        let st3 := { st2 with Impp := some mlast.i }
        let st4 := match cc with
          | none => { st3 with current_compliance := some (some |mlast.i * 2|) }
          | some _ => st3
        let st5 := match st4.Isc with
          | none => { st4 with Isc := some (mlast.i * (11/10)) }
          | some _ => st4
        ⟨st5, trace3, Phase1Out.proceed soakQ⟩

/-- C10: `reset` leaves every field of the tracker state unchanged; it
assigns only local variables and is an observable no-op. -/
theorem C10_reset_noop (st : TrackerState) : reset st = st := rfl

/-- C4: with `Voc` unset, `launch_tracker` returns the empty sequence,
issues no instrument call, leaves the tracker state unchanged, and raises
no exception. -/
theorem C4_voc_unset_noop (st : TrackerState) (tnow duration NPLC : ℚ)
    (soakQ : List Sample) (h : st.Voc = none) :
    launch_tracker_pre st tnow duration NPLC soakQ
      = ⟨st, [], Phase1Out.returned []⟩ := by
  unfold launch_tracker_pre
  rw [h]

/-- C4 witness: a fresh instance (all class defaults) with `Voc` unset. -/
theorem C4_witness :
    (TrackerState.Voc ⟨none, none, none, none, none, none, 10, none⟩ = none) ∧
    launch_tracker_pre ⟨none, none, none, none, none, none, 10, none⟩ 0 30 (-1) []
      = ⟨⟨none, none, none, none, none, none, 10, none⟩, [], Phase1Out.returned []⟩ :=
  ⟨rfl, C4_voc_unset_noop _ 0 30 (-1) [] rfl⟩

/-- C5 (code bug): on a run entered with `Voc` known and the compliance
never assigned, line 57 reads `self.current_compliance`, an attribute the
class never declares (line 15 declares `currentCompliance`), so the run
raises `AttributeError` before any instrument call instead of using the
provisional 0.04 A compliance. -/
theorem C5_attribute_error (st : TrackerState) (tnow duration NPLC : ℚ)
    (soakQ : List Sample) (voc : ℚ) (hvoc : st.Voc = some voc)
    (hcc : st.current_compliance = none) :
    (launch_tracker_pre st tnow duration NPLC soakQ).out
        = Phase1Out.raised PyErr.attributeError ∧
    (launch_tracker_pre st tnow duration NPLC soakQ).trace = [] := by
  cases hv : st.Vmpp <;>
    simp [launch_tracker_pre, hvoc, hv, hcc]

/-- C5 witness: the failing input — a fresh tracker with `Voc = 0.6` and
compliance unset, `launch_tracker(duration=30)`. -/
theorem C5_witness :
    (TrackerState.Voc ⟨some (3/5), none, none, none, none, none, 10, none⟩ = some (3/5)) ∧
    (TrackerState.current_compliance ⟨some (3/5), none, none, none, none, none, 10, none⟩
      = none) ∧
    (launch_tracker_pre ⟨some (3/5), none, none, none, none, none, 10, none⟩ 0 30 (-1) []).out
        = Phase1Out.raised PyErr.attributeError ∧
    (launch_tracker_pre ⟨some (3/5), none, none, none, none, none, 10, none⟩ 0 30 (-1) []).trace
        = [] :=
  ⟨rfl, rfl, C5_attribute_error _ 0 30 (-1) [] (3/5) rfl rfl⟩

/-- C9: with `Voc` known, `launch_tracker` seeds `Vmpp` to exactly
`0.7 * Voc` before the initial soak when `Vmpp` is unset, and leaves an
already-set `Vmpp` untouched (lines 54-55; no later pre-tracker statement
writes `Vmpp`). -/
theorem C9_vmpp_seed (st : TrackerState) (tnow duration NPLC : ℚ)
    (soakQ : List Sample) (voc : ℚ) (hvoc : st.Voc = some voc) :
    (st.Vmpp = none →
      (launch_tracker_pre st tnow duration NPLC soakQ).st.Vmpp = some ((7/10) * voc)) ∧
    (∀ w, st.Vmpp = some w →
      (launch_tracker_pre st tnow duration NPLC soakQ).st.Vmpp = some w) := by
  constructor
  · intro hv
    cases hcc : st.current_compliance with
    | none => simp [launch_tracker_pre, hvoc, hv, hcc]
    | some cc =>
      cases hq : soakQ.getLast? with
      | none => simp [launch_tracker_pre, hvoc, hv, hcc, hq]
      | some m =>
        cases cc with
        | none =>
          cases hisc : st.Isc <;>
            simp [launch_tracker_pre, hvoc, hv, hcc, hq, hisc]
        | some c =>
          cases hisc : st.Isc <;>
            simp [launch_tracker_pre, hvoc, hv, hcc, hq, hisc]
  · intro w hv
    cases hcc : st.current_compliance with
    | none => simp [launch_tracker_pre, hvoc, hv, hcc]
    | some cc =>
      cases hq : soakQ.getLast? with
      | none => simp [launch_tracker_pre, hvoc, hv, hcc, hq]
      | some m =>
        cases cc with
        | none =>
          cases hisc : st.Isc <;>
            simp [launch_tracker_pre, hvoc, hv, hcc, hq, hisc]
        | some c =>
          cases hisc : st.Isc <;>
            simp [launch_tracker_pre, hvoc, hv, hcc, hq, hisc]

/-- C9 witness: the spec §8 scenario `Voc = 0.600`, `Vmpp` unset — `Vmpp`
is seeded to `0.420`. -/
theorem C9_witness :
    (TrackerState.Voc ⟨some (3/5), none, none, none, none, some none, 10, none⟩
      = some (3/5)) ∧
    (TrackerState.Vmpp ⟨some (3/5), none, none, none, none, some none, 10, none⟩ = none) ∧
    (launch_tracker_pre ⟨some (3/5), none, none, none, none, some none, 10, none⟩
        0 30 (-1) [⟨21/50, -1/100, 0, 0⟩]).st.Vmpp = some (21/50) := by
  refine ⟨rfl, rfl, ?_⟩
  have h := (C9_vmpp_seed ⟨some (3/5), none, none, none, none, some none, 10, none⟩
    0 30 (-1) [⟨21/50, -1/100, 0, 0⟩] (3/5) rfl).1 rfl
  rw [h]
  norm_num

/-- C7: with `Voc` known (and the compliance attribute present, so that
line 57 does not raise), the single `measureUntil` issued before the
tracking loop has dwell `0.2 * duration` when `duration ≤ 10` and exactly
`10` otherwise; with `duration = 4` the soak is exactly `0.8` seconds. -/
theorem C7_initial_soak_length (st : TrackerState) (tnow duration NPLC : ℚ)
    (soakQ : List Sample) (voc : ℚ) (cc : Option ℚ)
    (hvoc : st.Voc = some voc) (hcc : st.current_compliance = some cc) :
    (∀ s b, Call.measureUntil s b ∈ (launch_tracker_pre st tnow duration NPLC soakQ).trace
      ↔ (s = (if duration ≤ 10 then duration * (2/10) else 10) ∧ b = false)) ∧
    (duration = 4 →
      Call.measureUntil (4/5) false
        ∈ (launch_tracker_pre st tnow duration NPLC soakQ).trace) := by
  have htr : ∀ s b,
      Call.measureUntil s b ∈ (launch_tracker_pre st tnow duration NPLC soakQ).trace
        ↔ (s = (if duration ≤ 10 then duration * (2/10) else 10) ∧ b = false) := by
    intro s b
    cases hv : st.Vmpp with
    | none =>
      cases hq : soakQ.getLast? with
      | none =>
        by_cases hn : NPLC = -1 <;>
          simp [launch_tracker_pre, hvoc, hv, hcc, hq, hn, eq_comm]
      | some m =>
        cases cc with
        | none =>
          cases hisc : st.Isc <;> by_cases hn : NPLC = -1 <;>
            simp [launch_tracker_pre, hvoc, hv, hcc, hq, hisc, hn, eq_comm]
        | some c =>
          cases hisc : st.Isc <;> by_cases hn : NPLC = -1 <;>
            simp [launch_tracker_pre, hvoc, hv, hcc, hq, hisc, hn, eq_comm]
    | some w =>
      cases hq : soakQ.getLast? with
      | none =>
        by_cases hn : NPLC = -1 <;>
          simp [launch_tracker_pre, hvoc, hv, hcc, hq, hn, eq_comm]
      | some m =>
        cases cc with
        | none =>
          cases hisc : st.Isc <;> by_cases hn : NPLC = -1 <;>
            simp [launch_tracker_pre, hvoc, hv, hcc, hq, hisc, hn, eq_comm]
        | some c =>
          cases hisc : st.Isc <;> by_cases hn : NPLC = -1 <;>
            simp [launch_tracker_pre, hvoc, hv, hcc, hq, hisc, hn, eq_comm]
  refine ⟨htr, ?_⟩
  intro hd
  subst hd
  rw [htr]
  norm_num

/-- C7 witness: the spec §8 scenario `Voc = 0.600`, `totalDuration = 4`
(≤ 10) gives a soak of exactly `0.8` seconds. -/
theorem C7_witness :
    (TrackerState.Voc ⟨some (3/5), none, none, none, none, some none, 10, none⟩
      = some (3/5)) ∧
    (TrackerState.current_compliance
      ⟨some (3/5), none, none, none, none, some none, 10, none⟩ = some none) ∧
    Call.measureUntil (4/5) false
      ∈ (launch_tracker_pre ⟨some (3/5), none, none, none, none, some none, 10, none⟩
          0 4 (-1) [⟨21/50, -1/100, 0, 0⟩]).trace :=
  ⟨rfl, rfl,
    (C7_initial_soak_length ⟨some (3/5), none, none, none, none, some none, 10, none⟩
      0 4 (-1) [⟨21/50, -1/100, 0, 0⟩] (3/5) none rfl rfl).2 rfl⟩

/-- Scan-local mutable state of one exploration scan of
`really_dumb_tracker` (lines 117-178).  `outs` records the arguments of
the `setOutput` calls issued, in order. -/
structure ScanState where
  v_set : ℚ
  dV : ℚ
  highEdgeTouched : Bool
  lowEdgeTouched : Bool
  v_explore : List ℚ
  i_explore : List ℚ
  q : List Sample
  outs : List ℚ
deriving DecidableEq

/-- Lines 150-175: the physical-boundary checks.  Each branch of the
walk-direction conditional contains two sequential `if` statements, the
second reading the `dV`/`v_set` values written by the first; they are
flattened here into nested conditionals whose leaves spell out those
sequential updates (`dV = dV * -1; v_set = v_set + dV`). -/
def boundaryAdjust (Voc v dV : ℚ) (hi lo : Bool) : ℚ × ℚ × Bool × Bool :=
  if (0 < v ∧ 0 < dV) ∨ (v < 0 ∧ dV < 0) then
    if 0 < dV ∧ Voc ≤ v then
      if -dV < 0 ∧ v - dV ≤ Voc then (v, dV, true, true)
      else (v - dV, -dV, true, lo)
    else
      if dV < 0 ∧ v ≤ Voc then (v - dV, -dV, hi, true)
      else (v, dV, hi, lo)
  else
    if 0 < dV ∧ 0 ≤ v then
      if -dV < 0 ∧ v - dV ≤ 0 then (v, dV, true, true)
      else (v - dV, -dV, true, lo)
    else
      if dV < 0 ∧ v ≤ 0 then (v - dV, -dV, hi, true)
      else (v, dV, hi, lo)

/-- One iteration of the exploration `while` body (lines 127-175): issue
`setOutput(v_set)`, take one measurement `m`, append it to the buffers,
apply the angle criterion (`hiT`/`loT` are this measurement's outcomes of
`dAngle > dAngleMax` resp. `dAngle < -dAngleMax`, cf. `trigHi`/`trigLo`;
each fire sets its flag and flips `dV`), advance `v_set` by `dV`, then run
the physical-boundary checks. -/
def scanStep (Voc : ℚ) (st : ScanState) (m : Sample) (hiT loT : Bool) : ScanState :=
  let outs := st.outs ++ [st.v_set]
  let q := st.q ++ [m]
  let i_explore := st.i_explore ++ [m.i]
  let v_explore := st.v_explore ++ [m.v]
  let hi0 := if hiT then true else st.highEdgeTouched
  let dV0 := if hiT then -st.dV else st.dV
  let lo0 := if loT then true else st.lowEdgeTouched
  let dV1 := if loT then -dV0 else dV0
  let v1 := st.v_set + dV1
  let r := boundaryAdjust Voc v1 dV1 hi0 lo0
  ⟨r.1, r.2.1, r.2.2.1, r.2.2.2, v_explore, i_explore, q, outs⟩

/-- The exploration `while` loop (line 126): the flag condition is checked
before each body run.  `fuel` bounds the number of iterations; `none`
means the loop has not finished within `fuel` steps (the Python loop is
unbounded), `k` indexes the oracle input consumed next. -/
def scanLoop (Voc : ℚ) (inps : ℕ → Sample × Bool × Bool) :
    ℕ → ℕ → ScanState → Option ScanState
  | 0, _, _ => none
  | fuel + 1, k, st =>
    if st.highEdgeTouched && st.lowEdgeTouched then some st
    else scanLoop Voc inps fuel (k + 1)
      (scanStep Voc st (inps k).1 (inps k).2.1 (inps k).2.2)

/-- Lines 110-125: scan state at entry of the `while` loop:
`i_explore = numpy.array(Impp)`, `v_explore = numpy.array(Vmpp)`,
`v_set = Vmpp`, both edge flags false.  `dV` equals `Voc / 301` on the
first cycle (line 103) and keeps its possibly flipped sign afterwards. -/
def scanInit (Vmpp0 Impp0 dV0 : ℚ) : ScanState :=
  ⟨Vmpp0, dV0, false, false, [Vmpp0], [Impp0], [], []⟩

/-- Lines 181-184: `p_explore = v_explore * i_explore * -1`,
`maxIndex = numpy.argmax(p_explore)`; the new `(Vmpp, Impp)` are the
buffer entries at `maxIndex`. -/
def selectMpp (v_explore i_explore : List ℚ) : ℚ × ℚ :=
  let p_explore := List.zipWith (fun a b => a * b * (-1)) v_explore i_explore
  let maxIndex := argmaxQ p_explore
  (v_explore.getD maxIndex 0, i_explore.getD maxIndex 0)

/-- `numpy.rad2deg`. -/
noncomputable def rad2deg (x : ℝ) : ℝ := x * (180 / Real.pi)

/-- Lines 121 and 134: the "angle" of an operating point `(v, i)`,
`numpy.rad2deg(numpy.arctan(i/v*Voc/Isc))`. -/
noncomputable def angleOf (Voc Isc v i : ℚ) : ℝ :=
  rad2deg (Real.arctan ((i : ℝ) / (v : ℝ) * (Voc : ℝ) / (Isc : ℝ)))

/-- Line 135: `dAngle = angleMpp - thisAngle`, where `angleMpp` is the
angle of the scan's starting `(Vmpp, Impp)` and `thisAngle` that of the
measurement `m`. -/
noncomputable def dAngleOf (Voc Isc Vmpp0 Impp0 : ℚ) (m : Sample) : ℝ :=
  angleOf Voc Isc Vmpp0 Impp0 - angleOf Voc Isc m.v m.i

open scoped Classical in
/-- Line 138: the condition `dAngle > dAngleMax`, with `dAngleMax = 7`. -/
noncomputable def trigHi (Voc Isc Vmpp0 Impp0 : ℚ) (m : Sample) : Bool :=
  if 7 < dAngleOf Voc Isc Vmpp0 Impp0 m then true else false

open scoped Classical in
/-- Line 143: the condition `dAngle < -dAngleMax`. -/
noncomputable def trigLo (Voc Isc Vmpp0 Impp0 : ℚ) (m : Sample) : Bool :=
  if dAngleOf Voc Isc Vmpp0 Impp0 m < -7 then true else false

/-- A full exploration-scan loop invocation: `scanLoop` driven by the
oracle measurement sequence `ms`, the angle-criterion branches decided by
the real-valued angle computation of the source. -/
noncomputable def scanRun (Voc Isc Vmpp0 Impp0 dV0 : ℚ) (ms : ℕ → Sample)
    (fuel : ℕ) : Option ScanState :=
  scanLoop Voc
    (fun k => (ms k, trigHi Voc Isc Vmpp0 Impp0 (ms k),
      trigLo Voc Isc Vmpp0 Impp0 (ms k)))
    fuel 0 (scanInit Vmpp0 Impp0 dV0)

theorem scanLoop_flags (Voc : ℚ) (inps : ℕ → Sample × Bool × Bool) :
    ∀ fuel k st st', scanLoop Voc inps fuel k st = some st' →
      st'.highEdgeTouched = true ∧ st'.lowEdgeTouched = true := by
  intro fuel
  induction fuel with
  | zero => intro k st st' h; simp [scanLoop] at h
  | succ n ih =>
    intro k st st' h
    rw [scanLoop] at h
    by_cases hc : (st.highEdgeTouched && st.lowEdgeTouched) = true
    · rw [if_pos hc] at h
      simp only [Bool.and_eq_true] at hc
      cases h
      exact hc
    · rw [if_neg hc] at h
      exact ih _ _ _ h

theorem boundaryAdjust_spec_up (Voc prev : ℚ) (hi lo : Bool)
    (hVoc : 0 < Voc) (hp0 : 0 ≤ prev) (hp1 : prev ≤ Voc) :
    ((boundaryAdjust Voc (prev + Voc / 301) (Voc / 301) hi lo).2.1 = Voc / 301 ∨
      (boundaryAdjust Voc (prev + Voc / 301) (Voc / 301) hi lo).2.1 = -(Voc / 301)) ∧
    (((boundaryAdjust Voc (prev + Voc / 301) (Voc / 301) hi lo).2.2.1 &&
        (boundaryAdjust Voc (prev + Voc / 301) (Voc / 301) hi lo).2.2.2) = false →
      0 ≤ (boundaryAdjust Voc (prev + Voc / 301) (Voc / 301) hi lo).1 ∧
        (boundaryAdjust Voc (prev + Voc / 301) (Voc / 301) hi lo).1 ≤ Voc) := by
  have hd : 0 < Voc / 301 := by positivity
  have hdVoc : Voc / 301 ≤ Voc := by
    rw [div_le_iff₀ (by norm_num : (0:ℚ) < 301)]
    nlinarith
  unfold boundaryAdjust
  split_ifs with a1 a2 a3 a4 a5 a6 a7
  · exact ⟨Or.inl rfl, fun hfl => by simp at hfl⟩
  · -- the stepped-back setpoint is the previous one, which is ≤ Voc, so the
    -- second boundary `if` always fires right after the first
    exact absurd ⟨by linarith, by linarith⟩ a3
  · exact absurd a4.1 (by linarith)
  · refine ⟨Or.inl rfl, fun _ => ⟨by linarith, ?_⟩⟩
    rcases not_and_or.mp a2 with h | h
    · exact absurd hd (by simpa using h)
    · linarith [lt_of_not_le h]
  · exact absurd (Or.inl ⟨by linarith, hd⟩) a1
  · exact absurd (Or.inl ⟨by linarith, hd⟩) a1
  · exact absurd (Or.inl ⟨by linarith, hd⟩) a1
  · exact absurd (Or.inl ⟨by linarith, hd⟩) a1

theorem boundaryAdjust_spec_down (Voc prev : ℚ) (hi lo : Bool)
    (hVoc : 0 < Voc) (hp0 : 0 ≤ prev) (hp1 : prev ≤ Voc) :
    ((boundaryAdjust Voc (prev + -(Voc / 301)) (-(Voc / 301)) hi lo).2.1 = Voc / 301 ∨
      (boundaryAdjust Voc (prev + -(Voc / 301)) (-(Voc / 301)) hi lo).2.1 = -(Voc / 301)) ∧
    (((boundaryAdjust Voc (prev + -(Voc / 301)) (-(Voc / 301)) hi lo).2.2.1 &&
        (boundaryAdjust Voc (prev + -(Voc / 301)) (-(Voc / 301)) hi lo).2.2.2) = false →
      0 ≤ (boundaryAdjust Voc (prev + -(Voc / 301)) (-(Voc / 301)) hi lo).1 ∧
        (boundaryAdjust Voc (prev + -(Voc / 301)) (-(Voc / 301)) hi lo).1 ≤ Voc) := by
  have hd : 0 < Voc / 301 := by positivity
  have hdVoc : Voc / 301 ≤ Voc := by
    rw [div_le_iff₀ (by norm_num : (0:ℚ) < 301)]
    nlinarith
  unfold boundaryAdjust
  split_ifs with a1 a2 a3 a4 a5 a6 a7
  · exact absurd a2.1 (by linarith)
  · exact absurd a2.1 (by linarith)
  · -- crossing below 0 while stepping down lands in the `towards Voc`
    -- branch (line 150 tests sign agreement) and fires its second `if`
    refine ⟨Or.inl (by ring), fun _ => ⟨by linarith, by linarith⟩⟩
  · rcases a1 with ⟨_, h⟩ | ⟨h1, h2⟩
    · exact absurd h (by linarith)
    · exact absurd ⟨h2, by linarith⟩ a4
  · exact absurd a5.1 (by linarith)
  · exact absurd a5.1 (by linarith)
  · refine ⟨Or.inl (by ring), fun _ => ⟨by linarith, by linarith⟩⟩
  · refine ⟨Or.inr rfl, fun _ => ⟨?_, by linarith⟩⟩
    rcases lt_or_le (prev + -(Voc / 301)) 0 with h | h
    · exact absurd (Or.inr ⟨h, by linarith⟩) a1
    · exact h

theorem scanStep_spec (Voc : ℚ) (st : ScanState) (m : Sample) (hiT loT : Bool)
    (hVoc : 0 < Voc) (hdv : st.dV = Voc / 301 ∨ st.dV = -(Voc / 301))
    (h0 : 0 ≤ st.v_set) (h1 : st.v_set ≤ Voc) :
    ((scanStep Voc st m hiT loT).dV = Voc / 301 ∨
      (scanStep Voc st m hiT loT).dV = -(Voc / 301)) ∧
    (((scanStep Voc st m hiT loT).highEdgeTouched &&
        (scanStep Voc st m hiT loT).lowEdgeTouched) = false →
      0 ≤ (scanStep Voc st m hiT loT).v_set ∧ (scanStep Voc st m hiT loT).v_set ≤ Voc) ∧
    (scanStep Voc st m hiT loT).outs = st.outs ++ [st.v_set] ∧
    (scanStep Voc st m hiT loT).v_explore = st.v_explore ++ [m.v] ∧
    (scanStep Voc st m hiT loT).i_explore = st.i_explore ++ [m.i] ∧
    (scanStep Voc st m hiT loT).q = st.q ++ [m] := by
  have hdv1 : (if loT then -(if hiT then -st.dV else st.dV)
        else if hiT then -st.dV else st.dV) = Voc / 301 ∨
      (if loT then -(if hiT then -st.dV else st.dV)
        else if hiT then -st.dV else st.dV) = -(Voc / 301) := by
    cases hiT <;> cases loT <;> rcases hdv with h | h <;> simp [h]
  simp only [scanStep]
  rcases hdv1 with h | h <;> rw [h]
  · exact ⟨(boundaryAdjust_spec_up Voc st.v_set _ _ hVoc h0 h1).1,
      (boundaryAdjust_spec_up Voc st.v_set _ _ hVoc h0 h1).2, trivial, trivial, trivial, trivial⟩
  · exact ⟨(boundaryAdjust_spec_down Voc st.v_set _ _ hVoc h0 h1).1,
      (boundaryAdjust_spec_down Voc st.v_set _ _ hVoc h0 h1).2, trivial, trivial, trivial, trivial⟩

theorem scanLoop_outs_range (Voc : ℚ) (inps : ℕ → Sample × Bool × Bool)
    (hVoc : 0 < Voc) :
    ∀ fuel k st st',
      (st.dV = Voc / 301 ∨ st.dV = -(Voc / 301)) →
      ((st.highEdgeTouched && st.lowEdgeTouched) = false →
        0 ≤ st.v_set ∧ st.v_set ≤ Voc) →
      (∀ x ∈ st.outs, 0 ≤ x ∧ x ≤ Voc) →
      scanLoop Voc inps fuel k st = some st' →
      ∀ x ∈ st'.outs, 0 ≤ x ∧ x ≤ Voc := by
  intro fuel
  induction fuel with
  | zero => intro k st st' _ _ _ h; simp [scanLoop] at h
  | succ n ih =>
    intro k st st' hdv hv houts h
    rw [scanLoop] at h
    by_cases hc : (st.highEdgeTouched && st.lowEdgeTouched) = true
    · rw [if_pos hc] at h
      cases h
      exact houts
    · rw [if_neg hc] at h
      have hc' : (st.highEdgeTouched && st.lowEdgeTouched) = false :=
        Bool.not_eq_true _ ▸ Bool.of_not_eq_true hc
      obtain ⟨h0, h1⟩ := hv hc'
      obtain ⟨sdv, srange, souts, _, _, _⟩ :=
        scanStep_spec Voc st (inps k).1 (inps k).2.1 (inps k).2.2 hVoc hdv h0 h1
      refine ih (k + 1) _ st' sdv srange ?_ h
      intro x hx
      rw [souts] at hx
      rcases List.mem_append.mp hx with hx | hx
      · exact houts x hx
      · rw [List.mem_singleton.mp hx]
        exact ⟨h0, h1⟩

theorem scanLoop_explore (Voc : ℚ) (inps : ℕ → Sample × Bool × Bool) (V0 I0 : ℚ) :
    ∀ fuel k st st',
      st.v_explore = V0 :: st.q.map Sample.v →
      st.i_explore = I0 :: st.q.map Sample.i →
      scanLoop Voc inps fuel k st = some st' →
      st'.v_explore = V0 :: st'.q.map Sample.v ∧
      st'.i_explore = I0 :: st'.q.map Sample.i := by
  intro fuel
  induction fuel with
  | zero => intro k st st' _ _ h; simp [scanLoop] at h
  | succ n ih =>
    intro k st st' hv hi h
    rw [scanLoop] at h
    by_cases hc : (st.highEdgeTouched && st.lowEdgeTouched) = true
    · rw [if_pos hc] at h
      cases h
      exact ⟨hv, hi⟩
    · rw [if_neg hc] at h
      refine ih (k + 1) _ st' ?_ ?_ h <;>
        simp [scanStep, hv, hi]

theorem scanLoop_q_all (Voc : ℚ) (inps : ℕ → Sample × Bool × Bool)
    (P : Sample → Prop) (hP : ∀ j, P (inps j).1) :
    ∀ fuel k st st', (∀ m ∈ st.q, P m) →
      scanLoop Voc inps fuel k st = some st' → ∀ m ∈ st'.q, P m := by
  intro fuel
  induction fuel with
  | zero => intro k st st' _ h; simp [scanLoop] at h
  | succ n ih =>
    intro k st st' hq h
    rw [scanLoop] at h
    by_cases hc : (st.highEdgeTouched && st.lowEdgeTouched) = true
    · rw [if_pos hc] at h
      cases h
      exact hq
    · rw [if_neg hc] at h
      refine ih (k + 1) _ st' ?_ h
      intro m hm
      simp only [scanStep, List.mem_append, List.mem_singleton] at hm
      rcases hm with hm | hm
      · exact hq m hm
      · rw [hm]; exact hP k

theorem selectMpp_spec (vs is : List ℚ) (hlen : vs.length = is.length)
    (hne : vs ≠ []) :
    argmaxQ (List.zipWith (fun a b => a * b * (-1)) vs is) < vs.length ∧
    selectMpp vs is
      = (vs.getD (argmaxQ (List.zipWith (fun a b => a * b * (-1)) vs is)) 0,
         is.getD (argmaxQ (List.zipWith (fun a b => a * b * (-1)) vs is)) 0) := by
  have hplen : (List.zipWith (fun a b => a * b * (-1)) vs is).length = vs.length := by
    simp [List.length_zipWith, hlen]
  have hpne : List.zipWith (fun a b => a * b * (-1)) vs is ≠ [] := by
    intro hc
    rw [hc] at hplen
    exact hne (List.length_eq_zero.mp hplen.symm)
  obtain ⟨hk, _, _⟩ := argmaxQ_spec _ hpne
  exact ⟨by omega, rfl⟩

theorem zipWith_mk_map_v : ∀ (vs is : List ℚ), vs.length = is.length →
    (List.zipWith (fun a b => (⟨a, b, 0, 0⟩ : Sample)) vs is).map Sample.v = vs := by
  intro vs
  induction vs with
  | nil => intro is _; rfl
  | cons a as ih =>
    intro is hlen
    match is with
    | [] => simp at hlen
    | b :: bs =>
      simp only [List.zipWith_cons_cons, List.map_cons]
      rw [ih bs (by simpa using hlen)]

theorem zipWith_mk_map_i : ∀ (vs is : List ℚ), vs.length = is.length →
    (List.zipWith (fun a b => (⟨a, b, 0, 0⟩ : Sample)) vs is).map Sample.i = is := by
  intro vs
  induction vs with
  | nil =>
    intro is hlen
    match is with
    | [] => rfl
    | b :: bs => simp at hlen
  | cons a as ih =>
    intro is hlen
    match is with
    | [] => simp at hlen
    | b :: bs =>
      simp only [List.zipWith_cons_cons, List.map_cons]
      rw [ih bs (by simpa using hlen)]

theorem selectMpp_which_max_power (vs is : List ℚ) (hlen : vs.length = is.length)
    (hne : vs ≠ []) :
    ∃ P k, which_max_power (List.zipWith (fun a b => (⟨a, b, 0, 0⟩ : Sample)) vs is)
        = some (P, (selectMpp vs is).1, (selectMpp vs is).2, k)
      ∧ k = argmaxQ (List.zipWith (fun a b => a * b * (-1)) vs is) := by
  match vs, is, hlen with
  | a :: as, b :: bs, hlen =>
    set samples := List.zipWith (fun a b => (⟨a, b, 0, 0⟩ : Sample)) (a :: as) (b :: bs)
      with hs
    have hsec : samples = ⟨a, b, 0, 0⟩ :: List.zipWith (fun a b => (⟨a, b, 0, 0⟩ : Sample)) as bs := rfl
    have hmv : samples.map Sample.v = a :: as := zipWith_mk_map_v _ _ hlen
    have hmi : samples.map Sample.i = b :: bs := zipWith_mk_map_i _ _ hlen
    refine ⟨(List.zipWith (fun a b => a * b * (-1)) (a :: as) (b :: bs)).getD
      (argmaxQ (List.zipWith (fun a b => a * b * (-1)) (a :: as) (b :: bs))) 0,
      argmaxQ (List.zipWith (fun a b => a * b * (-1)) (a :: as) (b :: bs)), ?_, rfl⟩
    rw [show which_max_power samples
        = some ((List.zipWith (fun x y => x * y * (-1)) (samples.map Sample.v)
              (samples.map Sample.i)).getD
            (argmaxQ (List.zipWith (fun x y => x * y * (-1)) (samples.map Sample.v)
              (samples.map Sample.i))) 0,
          (samples.map Sample.v).getD
            (argmaxQ (List.zipWith (fun x y => x * y * (-1)) (samples.map Sample.v)
              (samples.map Sample.i))) 0,
          (samples.map Sample.i).getD
            (argmaxQ (List.zipWith (fun x y => x * y * (-1)) (samples.map Sample.v)
              (samples.map Sample.i))) 0,
          argmaxQ (List.zipWith (fun x y => x * y * (-1)) (samples.map Sample.v)
            (samples.map Sample.i)))
      from by rw [hsec]; rfl]
    rw [hmv, hmi]
    rfl

theorem dAngle_B_zero :
    dAngleOf (301/500) (-301/500) (3/5) (-3/5) ⟨10, -10, 0, 0⟩ = 0 := by
  unfold dAngleOf angleOf
  norm_num

theorem dAngle_A_ninety :
    dAngleOf (301/500) (-301/500) (3/10) (-3/10) ⟨1, 1, 0, 0⟩ = 90 := by
  unfold dAngleOf angleOf rad2deg
  norm_num
  have hpi := Real.pi_ne_zero
  field_simp
  ring

theorem trigHi_B :
    trigHi (301/500) (-301/500) (3/5) (-3/5) ⟨10, -10, 0, 0⟩ = false := by
  unfold trigHi
  rw [dAngle_B_zero]
  norm_num

theorem trigLo_B :
    trigLo (301/500) (-301/500) (3/5) (-3/5) ⟨10, -10, 0, 0⟩ = false := by
  unfold trigLo
  rw [dAngle_B_zero]
  norm_num

theorem trigHi_A :
    trigHi (301/500) (-301/500) (3/10) (-3/10) ⟨1, 1, 0, 0⟩ = true := by
  unfold trigHi
  rw [dAngle_A_ninety]
  norm_num

theorem trigLo_A :
    trigLo (301/500) (-301/500) (3/10) (-3/10) ⟨1, 1, 0, 0⟩ = false := by
  unfold trigLo
  rw [dAngle_A_ninety]
  norm_num

theorem scanRunB :
    scanRun (301/500) (-301/500) (3/5) (-3/5) ((301/500)/301)
        (fun _ => ⟨10, -10, 0, 0⟩) 2
      = some ⟨301/500, (301/500)/301, true, true, [3/5, 10], [-3/5, -10],
          [⟨10, -10, 0, 0⟩], [3/5]⟩ := by
  unfold scanRun
  simp only [scanLoop, scanInit, trigHi_B, trigLo_B]
  norm_num [scanStep, boundaryAdjust, scanLoop]

theorem scanStep_false_bits (Voc : ℚ) (st : ScanState) (m : Sample) :
    scanStep Voc st m false false =
      ⟨(boundaryAdjust Voc (st.v_set + st.dV) st.dV st.highEdgeTouched st.lowEdgeTouched).1,
       (boundaryAdjust Voc (st.v_set + st.dV) st.dV st.highEdgeTouched st.lowEdgeTouched).2.1,
       (boundaryAdjust Voc (st.v_set + st.dV) st.dV st.highEdgeTouched st.lowEdgeTouched).2.2.1,
       (boundaryAdjust Voc (st.v_set + st.dV) st.dV st.highEdgeTouched st.lowEdgeTouched).2.2.2,
       st.v_explore ++ [m.v], st.i_explore ++ [m.i], st.q ++ [m],
       st.outs ++ [st.v_set]⟩ := rfl

theorem scanStep_hi_bit (Voc : ℚ) (st : ScanState) (m : Sample) :
    scanStep Voc st m true false =
      ⟨(boundaryAdjust Voc (st.v_set + -st.dV) (-st.dV) true st.lowEdgeTouched).1,
       (boundaryAdjust Voc (st.v_set + -st.dV) (-st.dV) true st.lowEdgeTouched).2.1,
       (boundaryAdjust Voc (st.v_set + -st.dV) (-st.dV) true st.lowEdgeTouched).2.2.1,
       (boundaryAdjust Voc (st.v_set + -st.dV) (-st.dV) true st.lowEdgeTouched).2.2.2,
       st.v_explore ++ [m.v], st.i_explore ++ [m.i], st.q ++ [m],
       st.outs ++ [st.v_set]⟩ := rfl

theorem boundaryAdjust_top (Voc v dV : ℚ) (hi lo : Bool)
    (h1 : 0 < v) (h2 : 0 < dV) (h3 : Voc ≤ v) (h4 : v - dV ≤ Voc) :
    boundaryAdjust Voc v dV hi lo = (v, dV, true, true) := by
  unfold boundaryAdjust
  rw [if_pos (Or.inl ⟨h1, h2⟩), if_pos ⟨h2, h3⟩, if_pos ⟨by linarith, h4⟩]

theorem boundaryAdjust_up_noop (Voc v dV : ℚ) (hi lo : Bool)
    (h1 : 0 < v) (h2 : 0 < dV) (h3 : v < Voc) :
    boundaryAdjust Voc v dV hi lo = (v, dV, hi, lo) := by
  unfold boundaryAdjust
  rw [if_pos (Or.inl ⟨h1, h2⟩)]
  rw [if_neg (by rintro ⟨_, hc⟩; linarith)]
  rw [if_neg (by rintro ⟨hc, _⟩; linarith)]

theorem scanLoop_mono (Voc : ℚ) (inps : ℕ → Sample × Bool × Bool) :
    ∀ fuel k st st', scanLoop Voc inps fuel k st = some st' →
      scanLoop Voc inps (fuel + 1) k st = some st' := by
  intro fuel
  induction fuel with
  | zero => intro k st st' h; simp [scanLoop] at h
  | succ n ih =>
    intro k st st' h
    rw [scanLoop] at h
    by_cases hfl : (st.highEdgeTouched && st.lowEdgeTouched) = true
    · rw [if_pos hfl] at h
      cases h
      rw [scanLoop, if_pos hfl]
    · rw [if_neg hfl] at h
      rw [scanLoop, if_neg hfl]
      exact ih _ _ _ h

theorem scanLoop_mono_le (Voc : ℚ) (inps : ℕ → Sample × Bool × Bool)
    (f g : ℕ) (hfg : f ≤ g) (k : ℕ) (st st' : ScanState)
    (h : scanLoop Voc inps f k st = some st') :
    scanLoop Voc inps g k st = some st' := by
  induction g with
  | zero =>
    have hf : f = 0 := by omega
    rw [← hf]; exact h
  | succ n ih =>
    by_cases hle : f ≤ n
    · exact scanLoop_mono Voc inps n k st st' (ih hle)
    · have hf : f = n + 1 := by omega
      rw [← hf]; exact h

theorem scanLoop_hit (Voc : ℚ) (inps : ℕ → Sample × Bool × Bool) (hVoc : 0 < Voc)
    (hbits : ∀ j, (inps j).2.1 = false ∧ (inps j).2.2 = false)
    (k : ℕ) (st : ScanState) (hdv : st.dV = Voc / 301)
    (h0 : 0 ≤ st.v_set) (h1 : st.v_set ≤ Voc)
    (hnear : Voc ≤ st.v_set + Voc / 301) :
    ∃ st', scanLoop Voc inps 2 k st = some st' := by
  have hd : 0 < Voc / 301 := by positivity
  by_cases hfl : (st.highEdgeTouched && st.lowEdgeTouched) = true
  · refine ⟨st, ?_⟩
    rw [scanLoop, if_pos hfl]
  · have hstep : scanStep Voc st (inps k).1 (inps k).2.1 (inps k).2.2
        = ⟨st.v_set + Voc / 301, Voc / 301, true, true,
           st.v_explore ++ [(inps k).1.v], st.i_explore ++ [(inps k).1.i],
           st.q ++ [(inps k).1], st.outs ++ [st.v_set]⟩ := by
      rw [(hbits k).1, (hbits k).2, scanStep_false_bits, hdv,
        boundaryAdjust_top Voc (st.v_set + Voc / 301) (Voc / 301)
          st.highEdgeTouched st.lowEdgeTouched (by linarith) hd (by linarith)
          (by linarith)]
    refine ⟨⟨st.v_set + Voc / 301, Voc / 301, true, true,
      st.v_explore ++ [(inps k).1.v], st.i_explore ++ [(inps k).1.i],
      st.q ++ [(inps k).1], st.outs ++ [st.v_set]⟩, ?_⟩
    rw [scanLoop, if_neg hfl, hstep, scanLoop]
    simp

theorem scanLoop_up (Voc : ℚ) (inps : ℕ → Sample × Bool × Bool) (hVoc : 0 < Voc)
    (hbits : ∀ j, (inps j).2.1 = false ∧ (inps j).2.2 = false) :
    ∀ (n k : ℕ) (st : ScanState), st.dV = Voc / 301 → 0 ≤ st.v_set → st.v_set ≤ Voc →
      Voc ≤ ((st.v_set : ℚ) + (n + 1) * (Voc / 301)) →
      ∃ st', scanLoop Voc inps (n + 2) k st = some st' := by
  intro n
  induction n with
  | zero =>
    intro k st hdv h0 h1 hreach
    exact scanLoop_hit Voc inps hVoc hbits k st hdv h0 h1 (by linarith)
  | succ n ih =>
    intro k st hdv h0 h1 hreach
    have hd : 0 < Voc / 301 := by positivity
    by_cases hnear : Voc ≤ st.v_set + Voc / 301
    · obtain ⟨st', h⟩ := scanLoop_hit Voc inps hVoc hbits k st hdv h0 h1 hnear
      exact ⟨st', scanLoop_mono_le Voc inps 2 (n + 1 + 2) (by omega) k st st' h⟩
    · push_neg at hnear
      by_cases hfl : (st.highEdgeTouched && st.lowEdgeTouched) = true
      · refine ⟨st, ?_⟩
        rw [scanLoop, if_pos hfl]
      · have hstep : scanStep Voc st (inps k).1 (inps k).2.1 (inps k).2.2
            = ⟨st.v_set + Voc / 301, Voc / 301, st.highEdgeTouched, st.lowEdgeTouched,
               st.v_explore ++ [(inps k).1.v], st.i_explore ++ [(inps k).1.i],
               st.q ++ [(inps k).1], st.outs ++ [st.v_set]⟩ := by
          rw [(hbits k).1, (hbits k).2, scanStep_false_bits, hdv,
            boundaryAdjust_up_noop Voc (st.v_set + Voc / 301) (Voc / 301)
              st.highEdgeTouched st.lowEdgeTouched (by linarith) hd hnear]
        obtain ⟨st', h⟩ := ih (k + 1)
          ⟨st.v_set + Voc / 301, Voc / 301, st.highEdgeTouched, st.lowEdgeTouched,
           st.v_explore ++ [(inps k).1.v], st.i_explore ++ [(inps k).1.i],
           st.q ++ [(inps k).1], st.outs ++ [st.v_set]⟩
          rfl (show (0:ℚ) ≤ st.v_set + Voc / 301 by linarith)
          (show st.v_set + Voc / 301 ≤ Voc by linarith)
          (show Voc ≤ st.v_set + Voc / 301 + ((n:ℚ) + 1) * (Voc / 301) by
            push_cast at hreach ⊢
            linarith)
        refine ⟨st', ?_⟩
        rw [scanLoop, if_neg hfl, hstep]
        exact h

theorem osc_stepA (st : ScanState) (m : Sample) (hv : st.v_set = 3/10)
    (hdv : st.dV = (301/500)/301) (hlo : st.lowEdgeTouched = false) :
    scanStep (301/500) st m true false
      = ⟨149/500, -((301/500)/301), true, false,
         st.v_explore ++ [m.v], st.i_explore ++ [m.i], st.q ++ [m],
         st.outs ++ [st.v_set]⟩ := by
  rw [scanStep_hi_bit, hv, hdv, hlo]
  have hb : boundaryAdjust (301/500) (3/10 + -((301/500)/301)) (-((301/500)/301))
        true false
      = (3/10 + -((301/500)/301), -((301/500)/301), true, false) := by
    unfold boundaryAdjust
    rw [if_neg (by norm_num), if_neg (by norm_num), if_neg (by norm_num)]
  rw [hb]
  norm_num

theorem osc_stepB (st : ScanState) (m : Sample) (hv : st.v_set = 149/500)
    (hdv : st.dV = -((301/500)/301)) (hlo : st.lowEdgeTouched = false) :
    scanStep (301/500) st m true false
      = ⟨3/10, (301/500)/301, true, false,
         st.v_explore ++ [m.v], st.i_explore ++ [m.i], st.q ++ [m],
         st.outs ++ [st.v_set]⟩ := by
  rw [scanStep_hi_bit, hv, hdv, hlo]
  have hb : boundaryAdjust (301/500) (149/500 + - -((301/500)/301))
        (- -((301/500)/301)) true false
      = (149/500 + - -((301/500)/301), - -((301/500)/301), true, false) := by
    unfold boundaryAdjust
    rw [if_pos (by norm_num), if_neg (by norm_num), if_neg (by norm_num)]
  rw [hb]
  norm_num

theorem scanLoop_osc (inps : ℕ → Sample × Bool × Bool)
    (hbits : ∀ j, (inps j).2.1 = true ∧ (inps j).2.2 = false) :
    ∀ fuel k (st : ScanState), st.lowEdgeTouched = false →
      ((st.v_set = 3/10 ∧ st.dV = (301/500)/301) ∨
        (st.v_set = 149/500 ∧ st.dV = -((301/500)/301))) →
      scanLoop (301/500) inps fuel k st = none := by
  intro fuel
  induction fuel with
  | zero => intro k st _ _; rfl
  | succ n ih =>
    intro k st hlo hst
    rw [scanLoop, if_neg (by simp [hlo])]
    rcases hst with ⟨hv, hdv⟩ | ⟨hv, hdv⟩
    · rw [(hbits k).1, (hbits k).2, osc_stepA st (inps k).1 hv hdv hlo]
      exact ih (k + 1) _ rfl (Or.inr ⟨rfl, rfl⟩)
    · rw [(hbits k).1, (hbits k).2, osc_stepB st (inps k).1 hv hdv hlo]
      exact ih (k + 1) _ rfl (Or.inl ⟨rfl, rfl⟩)

/-- C2 counterexample: from the valid starting state `Voc = 0.602`,
`Isc = -0.602` (nonzero), `Vmpp = 0.3 ∈ (0, Voc]`, `Impp = -0.3`, the
measurement sequence constantly returning the sample `(v, i) = (1, 1)`
gives `dAngle = 90 > dAngleMax` at every iteration, so line 140 flips `dV`
every time and `v_set` oscillates between `0.3` and `0.298`;
`lowEdgeTouched` is never set and the exploration loop never terminates,
refuting the claim that every measurement sequence leads to termination. -/
theorem C2_counterexample :
    ((0:ℚ) < 301/500 ∧ (-301/500:ℚ) ≠ 0 ∧ (0:ℚ) < 3/10 ∧ (3/10:ℚ) ≤ 301/500) ∧
    ∀ fuel, scanRun (301/500) (-301/500) (3/10) (-3/10) ((301/500)/301)
      (fun _ => ⟨1, 1, 0, 0⟩) fuel = none := by
  refine ⟨by norm_num, ?_⟩
  intro fuel
  unfold scanRun
  exact scanLoop_osc _ (fun j => ⟨trigHi_A, trigLo_A⟩) fuel 0 _ rfl
    (Or.inl ⟨rfl, rfl⟩)

/-- C2 (amended): whenever a single exploration-scan loop invocation
returns, both `highEdgeTouched` and `lowEdgeTouched` are true (the loop
condition, line 126); and from any starting state with `Voc > 0`,
`Isc ≠ 0`, `Vmpp ∈ (0, Voc]`, the scan does terminate whenever no
measurement triggers the angle criterion (edge detection then happens at
the `Voc` boundary).  Unconditional termination for arbitrary measurement
sequences fails (`C2_counterexample`). -/
theorem C2_amended_scan :
    (∀ (Voc Isc Vmpp0 Impp0 dV0 : ℚ) (ms : ℕ → Sample) (fuel : ℕ)
      (st' : ScanState),
      scanRun Voc Isc Vmpp0 Impp0 dV0 ms fuel = some st' →
      st'.highEdgeTouched = true ∧ st'.lowEdgeTouched = true) ∧
    (∀ (Voc Isc Vmpp0 Impp0 : ℚ) (ms : ℕ → Sample),
      0 < Voc → Isc ≠ 0 → 0 < Vmpp0 → Vmpp0 ≤ Voc →
      (∀ j, trigHi Voc Isc Vmpp0 Impp0 (ms j) = false ∧
        trigLo Voc Isc Vmpp0 Impp0 (ms j) = false) →
      ∃ fuel st', scanRun Voc Isc Vmpp0 Impp0 (Voc / 301) ms fuel = some st') := by
  constructor
  · intro Voc Isc V0 I0 dV0 ms fuel st' h
    exact scanLoop_flags Voc _ fuel 0 _ st' h
  · intro Voc Isc V0 I0 ms hVoc hIsc h0 h1 hbits
    have h301 : (301:ℚ) * (Voc / 301) = Voc := by field_simp
    have hreach : Voc ≤ ((scanInit V0 I0 (Voc / 301)).v_set : ℚ)
        + ((300:ℕ) + 1 : ℚ) * (Voc / 301) := by
      show Voc ≤ V0 + ((300:ℕ) + 1 : ℚ) * (Voc / 301)
      push_cast
      linarith
    obtain ⟨st', h⟩ := scanLoop_up Voc
      (fun j => (ms j, trigHi Voc Isc V0 I0 (ms j), trigLo Voc Isc V0 I0 (ms j)))
      hVoc (fun j => hbits j) 300 0 (scanInit V0 I0 (Voc / 301)) rfl
      (le_of_lt h0) h1 hreach
    exact ⟨302, st', h⟩

/-- C2 amended witness: part 1 applied to the concrete terminated scan of
`scanRunB`; part 2 applied at `Voc = 0.602`, `Isc = -0.602`,
`Vmpp = 0.6`, `Impp = -0.6` with the constant measurement `(10, -10)`,
whose angle equals the starting angle, so the criterion never fires. -/
theorem C2_witness :
    ((0:ℚ) < 301/500 ∧ (-301/500:ℚ) ≠ 0 ∧ (0:ℚ) < 3/5 ∧ (3/5:ℚ) ≤ 301/500) ∧
    (∃ st', scanRun (301/500) (-301/500) (3/5) (-3/5) ((301/500)/301)
        (fun _ => ⟨10, -10, 0, 0⟩) 2 = some st' ∧
      st'.highEdgeTouched = true ∧ st'.lowEdgeTouched = true) ∧
    (∃ fuel st', scanRun (301/500) (-301/500) (3/5) (-3/5) ((301/500)/301)
        (fun _ => ⟨10, -10, 0, 0⟩) fuel = some st') :=
  ⟨by norm_num,
    ⟨_, scanRunB, C2_amended_scan.1 _ _ _ _ _ _ _ _ scanRunB⟩,
    C2_amended_scan.2 (301/500) (-301/500) (3/5) (-3/5) _ (by norm_num)
      (by norm_num) (by norm_num) (by norm_num)
      (fun j => ⟨trigHi_B, trigLo_B⟩)⟩

/-- C3 counterexample: a scan from the valid start `Voc = 0.602`,
`Vmpp = 0.6 ∈ [0, Voc]`, with the instrument constantly reporting the
angle-neutral but out-of-range sample `(v, i) = (10, -10)`, terminates at
the `Voc` boundary after one iteration, and the Vmpp estimate produced by
the inline selection is `10 > Voc`: the estimate comes from measured
voltages, which nothing constrains to `[0, Voc]`. -/
theorem C3_counterexample :
    ((0:ℚ) < 301/500 ∧ (0:ℚ) ≤ 3/5 ∧ (3/5:ℚ) ≤ 301/500) ∧
    ∃ st', scanRun (301/500) (-301/500) (3/5) (-3/5) ((301/500)/301)
        (fun _ => ⟨10, -10, 0, 0⟩) 2 = some st' ∧
      (selectMpp st'.v_explore st'.i_explore).1 = 10 ∧
      ¬((selectMpp st'.v_explore st'.i_explore).1 ≤ 301/500) := by
  refine ⟨by norm_num, _, scanRunB, ?_, ?_⟩
  · norm_num [selectMpp, argmaxQ, argmaxAux]
  · norm_num [selectMpp, argmaxQ, argmaxAux]

/-- C3 (amended): for every exploration scan started with `Voc > 0` and
`Vmpp ∈ [0, Voc]` (step `dV = ±Voc/301`), every voltage setpoint passed
to `setOutput` lies within `[0, Voc]`; and the Vmpp estimate produced by
the scan lies within `[0, Voc]` provided every measured voltage does (the
proviso the counterexample forces). -/
theorem C3_amended_scan (Voc Isc Vmpp0 Impp0 dV0 : ℚ) (ms : ℕ → Sample)
    (fuel : ℕ) (st' : ScanState)
    (hVoc : 0 < Voc) (h0 : 0 ≤ Vmpp0) (h1 : Vmpp0 ≤ Voc)
    (hdv : dV0 = Voc / 301 ∨ dV0 = -(Voc / 301))
    (hrun : scanRun Voc Isc Vmpp0 Impp0 dV0 ms fuel = some st') :
    (∀ x ∈ st'.outs, 0 ≤ x ∧ x ≤ Voc) ∧
    ((∀ j, 0 ≤ (ms j).v ∧ (ms j).v ≤ Voc) →
      0 ≤ (selectMpp st'.v_explore st'.i_explore).1 ∧
      (selectMpp st'.v_explore st'.i_explore).1 ≤ Voc) := by
  unfold scanRun at hrun
  constructor
  · exact scanLoop_outs_range Voc _ hVoc fuel 0 _ st' hdv (fun _ => ⟨h0, h1⟩)
      (by intro x hx; simp [scanInit] at hx) hrun
  · intro hms
    obtain ⟨hv, hi⟩ := scanLoop_explore Voc _ Vmpp0 Impp0 fuel 0 _ st' rfl rfl hrun
    have hq : ∀ m ∈ st'.q, 0 ≤ m.v ∧ m.v ≤ Voc :=
      scanLoop_q_all Voc _ (fun m => 0 ≤ m.v ∧ m.v ≤ Voc) (fun j => hms j)
        fuel 0 _ st' (by intro m hm; simp [scanInit] at hm) hrun
    have hlen : st'.v_explore.length = st'.i_explore.length := by
      rw [hv, hi]; simp
    have hne : st'.v_explore ≠ [] := by rw [hv]; simp
    obtain ⟨hidx, hsel⟩ := selectMpp_spec st'.v_explore st'.i_explore hlen hne
    rw [hsel]
    have hmem : st'.v_explore.getD
        (argmaxQ (List.zipWith (fun a b => a * b * (-1))
          st'.v_explore st'.i_explore)) 0 ∈ st'.v_explore := by
      rw [List.getD_eq_getElem _ _ hidx]
      exact List.getElem_mem _
    have hcases : ∀ x, x ∈ st'.v_explore → x = Vmpp0 ∨ ∃ m ∈ st'.q, m.v = x := by
      intro x hx
      rw [hv] at hx
      rcases List.mem_cons.mp hx with h | h
      · exact Or.inl h
      · obtain ⟨m, hm, he⟩ := List.mem_map.mp h
        exact Or.inr ⟨m, hm, he⟩
    rcases hcases _ hmem with hm | ⟨m, hmq, he⟩
    · rw [hm]
      exact ⟨h0, h1⟩
    · rw [← he]
      exact hq m hmq

/-- C3 amended witness: the amended theorem applied to the concrete
terminated scan of `scanRunB`. -/
theorem C3_witness :
    ((0:ℚ) < 301/500 ∧ (0:ℚ) ≤ 3/5 ∧ (3/5:ℚ) ≤ 301/500 ∧
      ((301/500:ℚ)/301 = (301/500:ℚ)/301 ∨ (301/500:ℚ)/301 = -((301/500:ℚ)/301))) ∧
    ∃ st', scanRun (301/500) (-301/500) (3/5) (-3/5) ((301/500)/301)
        (fun _ => ⟨10, -10, 0, 0⟩) 2 = some st' ∧
      ((∀ x ∈ st'.outs, 0 ≤ x ∧ x ≤ (301/500:ℚ)) ∧
        ((∀ j : ℕ, 0 ≤ ((fun _ : ℕ => (⟨10, -10, 0, 0⟩ : Sample)) j).v ∧
            ((fun _ : ℕ => (⟨10, -10, 0, 0⟩ : Sample)) j).v ≤ (301/500:ℚ)) →
          0 ≤ (selectMpp st'.v_explore st'.i_explore).1 ∧
          (selectMpp st'.v_explore st'.i_explore).1 ≤ (301/500:ℚ))) :=
  ⟨⟨by norm_num, by norm_num, by norm_num, Or.inl rfl⟩,
    _, scanRunB,
    C3_amended_scan (301/500) (-301/500) (3/5) (-3/5) ((301/500)/301)
      (fun _ => ⟨10, -10, 0, 0⟩) 2 _ (by norm_num) (by norm_num) (by norm_num)
      (Or.inl rfl) scanRunB⟩

/-- C6: after a completed exploration scan, the selection buffers hold
exactly the starting `(Vmpp, Impp)` followed by every sample visited
during the scan, and the inline selection of lines 181-184 (`selectMpp`,
which yields the new `(Vmpp, Impp)`) picks the same voltage/current pair
as `which_max_power` applied to that same sequence of points. -/
theorem C6_selection_refinement (Voc Isc Vmpp0 Impp0 dV0 : ℚ) (ms : ℕ → Sample)
    (fuel : ℕ) (st' : ScanState)
    (hrun : scanRun Voc Isc Vmpp0 Impp0 dV0 ms fuel = some st') :
    st'.v_explore = Vmpp0 :: st'.q.map Sample.v ∧
    st'.i_explore = Impp0 :: st'.q.map Sample.i ∧
    ∃ P k, which_max_power (List.zipWith (fun a b => (⟨a, b, 0, 0⟩ : Sample))
          st'.v_explore st'.i_explore)
        = some (P, (selectMpp st'.v_explore st'.i_explore).1,
            (selectMpp st'.v_explore st'.i_explore).2, k) := by
  unfold scanRun at hrun
  obtain ⟨hv, hi⟩ := scanLoop_explore Voc _ Vmpp0 Impp0 fuel 0 _ st' rfl rfl hrun
  refine ⟨hv, hi, ?_⟩
  obtain ⟨P, k, h, _⟩ := selectMpp_which_max_power st'.v_explore st'.i_explore
    (by rw [hv, hi]; simp) (by rw [hv]; simp)
  exact ⟨P, k, h⟩

/-- C6 witness: the refinement theorem applied to the concrete terminated
scan of `scanRunB`. -/
theorem C6_witness :
    ∃ st', scanRun (301/500) (-301/500) (3/5) (-3/5) ((301/500)/301)
        (fun _ => ⟨10, -10, 0, 0⟩) 2 = some st' ∧
      (st'.v_explore = (3/5:ℚ) :: st'.q.map Sample.v ∧
        st'.i_explore = (-3/5:ℚ) :: st'.q.map Sample.i ∧
        ∃ P k, which_max_power (List.zipWith (fun a b => (⟨a, b, 0, 0⟩ : Sample))
              st'.v_explore st'.i_explore)
            = some (P, (selectMpp st'.v_explore st'.i_explore).1,
                (selectMpp st'.v_explore st'.i_explore).2, k)) :=
  ⟨_, scanRunB,
    C6_selection_refinement (301/500) (-301/500) (3/5) (-3/5) ((301/500)/301)
      (fun _ => ⟨10, -10, 0, 0⟩) 2 _ scanRunB⟩

/-- The dwell phase of `really_dumb_tracker` (mppt.py lines 192-212):
compute `time_left = duration - run_time`; if `time_left <= 0` the loop
`break`s with no instrument call (modelled by `none`); otherwise issue
`setOutput(Vmpp)`, run `measureUntil` for
`dwell = time_left if time_left < dwell_time else dwell_time` (passing the
callback when one was supplied), update `Impp` to the last collected
sample's current (`dq[-1][1]`, an `IndexError` on an empty burst), and
extend the history with `dq`. -/
def dwellPhase (duration run_time dwell_time Vmpp : ℚ) (hasCb : Bool)
    (dq : List Sample) : Option (List Call × Except PyErr (ℚ × List Sample)) :=
  let time_left := duration - run_time
  if time_left ≤ 0 then none
  else
    let dwell := if time_left < dwell_time then time_left else dwell_time
    let calls := [Call.setOutput Vmpp, Call.measureUntil dwell hasCb]
    match dq.getLast? with
    | none => some (calls, Except.error PyErr.indexError)
    | some mlast => some (calls, Except.ok (mlast.i, dq))

/-- C8: the dwell burst length equals `min(dwellTime, timeLeft)` with
`timeLeft = totalDuration - elapsedRunTime`; if `timeLeft ≤ 0` the phase
is skipped with no instrument calls and the loop terminates (the `break`,
modelled by `none`); otherwise the phase issues exactly
`setOutput(Vmpp)` then `measureUntil(min(dwellTime, timeLeft))`, and the
new `Impp` is the current of the last sample collected. -/
theorem C8_dwell_phase (duration run_time dwell_time Vmpp : ℚ) (hasCb : Bool)
    (dq : List Sample) :
    (duration - run_time ≤ 0 →
      dwellPhase duration run_time dwell_time Vmpp hasCb dq = none) ∧
    (0 < duration - run_time → dq ≠ [] →
      ∃ mlast, dq.getLast? = some mlast ∧
        dwellPhase duration run_time dwell_time Vmpp hasCb dq
          = some ([Call.setOutput Vmpp,
              Call.measureUntil (min dwell_time (duration - run_time)) hasCb],
            Except.ok (mlast.i, dq))) := by
  constructor
  · intro h
    simp [dwellPhase, h]
  · intro h hne
    have hmin : (if duration - run_time < dwell_time then duration - run_time
          else dwell_time)
        = min dwell_time (duration - run_time) := by
      rcases lt_or_le (duration - run_time) dwell_time with hc | hc
      · rw [if_pos hc, min_eq_right (le_of_lt hc)]
      · rw [if_neg (not_lt.mpr hc), min_eq_left hc]
    cases hq : dq.getLast? with
    | none =>
      exact absurd (by simpa using hq) hne
    | some mlast =>
      refine ⟨mlast, rfl, ?_⟩
      rw [← hmin]
      simp [dwellPhase, not_le.mpr h, hq]

/-- C8 witness: `duration = 30`, `run_time = 25` (so `timeLeft = 5`),
`dwellTime = 10`: the burst is `min(10, 5) = 5` seconds and `Impp` comes
from the last sample; and with `run_time = 30` the phase is skipped. -/
theorem C8_witness :
    ((30:ℚ) - 30 ≤ 0 ∧ dwellPhase 30 30 10 (21/50) false [⟨21/50, -9/250, 0, 0⟩] = none) ∧
    ((0:ℚ) < 30 - 25 ∧ ([⟨21/50, -9/250, 0, 0⟩] : List Sample) ≠ [] ∧
      ∃ mlast, ([⟨21/50, -9/250, 0, 0⟩] : List Sample).getLast? = some mlast ∧
        dwellPhase 30 25 10 (21/50) false [⟨21/50, -9/250, 0, 0⟩]
          = some ([Call.setOutput (21/50),
              Call.measureUntil (min 10 ((30:ℚ) - 25)) false],
            Except.ok (mlast.i, [⟨21/50, -9/250, 0, 0⟩]))) :=
  ⟨⟨by norm_num, (C8_dwell_phase 30 30 10 (21/50) false _).1 (by norm_num)⟩,
    by norm_num, by simp,
    (C8_dwell_phase 30 25 10 (21/50) false _).2 (by norm_num) (by simp)⟩
